import Mathlib

/-!
Verification of the variant-axis / price-resolution / wishlist core of
`app.py` (inventory-wishlist).  The Python functions are shallowly embedded:
dictionaries become insertion-ordered association lists, `None` becomes
`Option`, Python truthiness of strings/options is modelled explicitly, and
scalar cell values (strings or numbers) become an inductive `Cell` whose
numeric constructor carries both the rational value and its textual
rendering (the result of Python `str`).
-/

namespace InvWish

/-- Whitespace characters stripped by Python `str.strip()` and matched by
the regex class in `_MM_RE` (ASCII fragment). -/
def isPySpace (c : Char) : Bool :=
  c = ' ' || c = '\t' || c = '\n' || c = '\r' || c = Char.ofNat 11 || c = Char.ofNat 12

def dropSpaces (cs : List Char) : List Char :=
  cs.dropWhile isPySpace

/-- Python `str.strip()`. -/
def pyStrip (s : String) : String :=
  String.mk (((s.data.dropWhile isPySpace).reverse.dropWhile isPySpace).reverse)

def isMChar (c : Char) : Bool :=
  c = 'm' || c = 'M'

def pyCharLower (c : Char) : Char :=
  if 65 ≤ c.toNat ∧ c.toNat ≤ 90 then Char.ofNat (c.toNat + 32) else c

/-- Python `str.lower()` (ASCII fragment). -/
def pyLower (s : String) : String :=
  String.mk (s.data.map pyCharLower)

/-- After the numeric part of `_MM_RE`: optional whitespace, `mm`
(case-insensitive), optional whitespace, end of string. -/
def mmTail (cs : List Char) : Bool :=
  match dropSpaces cs with
  | c1 :: c2 :: rest => isMChar c1 && isMChar c2 && (dropSpaces rest).isEmpty
  | _ => false

/-- The regex `_MM_RE = ^\s*\d+(?:\.\d+)?\s*mm\s*$` (IGNORECASE).  The
regex is deterministic on this anchored pattern, so a direct parse is
equivalent to the backtracking semantics. -/
def mmMatch (s : String) : Bool :=
  let cs := dropSpaces s.data
  let ds := cs.takeWhile Char.isDigit
  let rest := cs.dropWhile Char.isDigit
  !ds.isEmpty &&
    match rest with
    | '.' :: r2 =>
        let ds2 := r2.takeWhile Char.isDigit
        !ds2.isEmpty && mmTail (r2.dropWhile Char.isDigit)
    | r => mmTail r

/-- A scalar cell of a variant row: a string, or a Python number carrying
its value together with its `str()` rendering. -/
inductive Cell where
  | str (s : String)
  | num (q : Rat) (txt : String)
deriving DecidableEq, Repr

/-- Python `str(x)` on a cell. -/
def cellStr : Cell → String
  | .str s => s
  | .num _ t => t

/-- Insertion-ordered dictionary lookup (`d.get(k)`). -/
def dictGet {α : Type} : List (String × α) → String → Option α
  | [], _ => none
  | e :: rest, k => if e.1 = k then some e.2 else dictGet rest k

/-- Insertion-ordered dictionary assignment `d[k] = v`: replace in place if
the key is present, else append at the end. -/
def upsert (m : List (String × String)) (k v : String) : List (String × String) :=
  if (dictGet m k).isSome then
    m.map (fun e => if e.1 = k then (k, v) else e)
  else
    m ++ [(k, v)]

/-- `base.update(new)` on insertion-ordered string dictionaries. -/
def updateMap (base new : List (String × String)) : List (String × String) :=
  new.foldl (fun m e => upsert m e.1 e.2) base

/-- One row of a `standard_variant` table (`items` element). -/
structure Row where
  cells : List (String × Cell)
  image_local : Option String := none
  image : Option String := none
deriving DecidableEq, Repr

/-- One option of a `color_variant` swatch block. -/
structure SwatchOpt where
  name : Option Cell := none
  image_local : Option String := none
  image : Option String := none
deriving DecidableEq, Repr

/-- A variant block: `standard_variant`, `color_variant`, or any other
(unrecognised) block type. -/
inductive VBlock where
  | standard (headers : List String) (items : List Row)
  | color (label : Option String) (options : List SwatchOpt)
  | other
deriving DecidableEq, Repr

structure Product where
  sku : Option String := none
  title : Option String := none
  main_image_local : Option String := none
  main_image : Option String := none
  url : Option String := none
  variants : List VBlock := []
deriving DecidableEq, Repr

/-- Python truthiness of an optional string (`None` and `""` are falsy). -/
def truthy : Option String → Bool
  | none => false
  | some s => s != ""

/-- Python `a or b` on optional strings. -/
def pyOr (a b : Option String) : Option String :=
  if truthy a then a else b

/-- `best_image`: prefer the local image path, fall back to the remote URL. -/
def best_image (p : Product) : Option String :=
  pyOr p.main_image_local p.main_image

/-- The per-row image choice `if img_local: ... elif img: ...`. -/
def pickImage (img_local img : Option String) : Option String :=
  if truthy img_local then img_local else if truthy img then img else none

/-- `_clean_option_name`: stringify (None becomes ""), strip, and replace a
blank result by the sentinel "Unspecified". -/
def clean_option_name (v : Option Cell) : String :=
  let s := pyStrip (match v with | none => "" | some c => cellStr c)
  if s = "" then "Unspecified" else s

/-- `_PRICEY_COLS`. -/
def priceyCols : List String :=
  ["price", "price / pc", "price/pc", "price per pc", "price per pair", "price per piece"]

/-- `(h or "").strip().lower() in _PRICEY_COLS`. -/
def is_pricey (h : String) : Bool :=
  priceyCols.contains (pyLower (pyStrip h))

/-- `normalize_axis_label`. -/
def normalize_axis_label (raw_label : String) (option_names : List String) : String :=
  let label := pyStrip raw_label
  if option_names ≠ [] ∧ ∀ x ∈ option_names, mmMatch x then
    "Length"
  else
    let lower := pyLower label
    if lower ∈ ["cz color", "crystal color", "color"] then "Color"
    else if lower ∈ ["packing option", "packing", "package"] then "Packing Option"
    else if lower = "rack" then "Rack"
    else if lower = "gauge" then "Gauge"
    else if lower = "size" then "Size"
    else if label = "" then "Option"
    else label

/-- A UI axis (the dictionaries built by `build_variant_axes`). -/
structure Axis where
  label : String
  options : List String
  image_map : List (String × String)
  source_blocks : List Nat
  kind : String
deriving DecidableEq, Repr

/-- `if opt not in bucket["options"]: bucket["options"].append(opt)`. -/
def insertIfAbsent (os : List String) (o : String) : List String :=
  if o ∈ os then os else os ++ [o]

/-- Merge a list of option names into an existing ordered option list,
first occurrence wins. -/
def mergeOpts (base new : List String) : List String :=
  new.foldl insertIfAbsent base

/-- The per-column scan of a `standard_variant` block: collect the ordered
deduplicated option values of column `h` together with the per-value image
map contributed by row-level images. -/
def collectColumn (h : String) (items : List Row) : List String × List (String × String) :=
  items.foldl
    (fun acc row =>
      let val := clean_option_name (dictGet row.cells h)
      let opts := if val ≠ "" ∧ val ∉ acc.1 then acc.1 ++ [val] else acc.1
      let imap :=
        match pickImage row.image_local row.image with
        | some s => upsert acc.2 val s
        | none => acc.2
      (opts, imap))
    ([], [])

/-- The option scan of a `color_variant` block: option names are appended
without deduplication (deduplication happens at merge time). -/
def collectSwatch (options : List SwatchOpt) : List String × List (String × String) :=
  options.foldl
    (fun acc o =>
      let name := clean_option_name o.name
      let imap :=
        match pickImage o.image_local o.image with
        | some s => upsert acc.2 name s
        | none => acc.2
      (acc.1 ++ [name], imap))
    ([], [])

/-- A block's contribution to the axis accumulator: the normalized label,
the collected option list and the collected image map. -/
structure Contrib where
  label : String
  options : List String
  image_map : List (String × String)
deriving DecidableEq, Repr

def columnContrib (h : String) (items : List Row) : Contrib :=
  let c := collectColumn h items
  { label := normalize_axis_label h c.1, options := c.1, image_map := c.2 }

def swatchContrib (label : Option String) (options : List SwatchOpt) : Contrib :=
  let lbl := match label with | none => "Color" | some s => if s = "" then "Color" else s
  let c := collectSwatch options
  { label := normalize_axis_label lbl c.1, options := c.1, image_map := c.2 }

/-- The list of (label, options, image map) contributions a block makes, in
the order the Python loop produces them; unrecognised block types
contribute nothing. -/
def blockContribs : VBlock → List Contrib
  | .standard headers items =>
      (headers.filter (fun h => !is_pricey h)).map (fun h => columnContrib h items)
  | .color label options => [swatchContrib label options]
  | .other => []

/-- In-place mutation of an existing bucket: merge the new options
(first-seen wins), update the image map, record the block index. -/
def bumpAxis (ax : Axis) (c : Contrib) (idx : Nat) : Axis :=
  { ax with
    options := mergeOpts ax.options c.options
    image_map := updateMap ax.image_map c.image_map
    source_blocks := ax.source_blocks ++ [idx] }

/-- The fresh bucket inserted by `setdefault`, after the same mutation. -/
def newAxis (c : Contrib) (idx : Nat) : Axis :=
  { label := c.label, options := mergeOpts [] c.options
    image_map := updateMap [] c.image_map, source_blocks := [idx], kind := "merged" }

/-- Merge one contribution of block `idx` into the accumulator keyed by
normalized label (`axes_by_label.setdefault` followed by in-place bucket
mutation). -/
def mergeContrib (acc : List (String × Axis)) (c : Contrib) (idx : Nat) :
    List (String × Axis) :=
  match dictGet acc c.label with
  | some ax => acc.map (fun e => if e.1 = c.label then (c.label, bumpAxis ax c idx) else e)
  | none => acc ++ [(c.label, newAxis c idx)]

/-- The `for idx, v in enumerate(blocks)` loop of `build_variant_axes`. -/
def buildAxesGo : List VBlock → Nat → List (String × Axis) → List (String × Axis)
  | [], _, acc => acc
  | b :: rest, idx, acc =>
      buildAxesGo rest (idx + 1) ((blockContribs b).foldl (fun a c => mergeContrib a c idx) acc)

/-- The fixed priority table used to order finished axes. -/
def axPriority (l : String) : Nat :=
  if l = "Length" then 0
  else if l = "Size" then 1
  else if l = "Gauge" then 2
  else if l = "Color" then 3
  else if l = "Packing Option" then 4
  else if l = "Rack" then 5
  else 99

/-- The sort key order `(priority.get(label, 99), label)` of the final
`sorted` call, as a relation on axes. -/
def axLe (a b : Axis) : Prop :=
  axPriority a.label < axPriority b.label ∨
    (axPriority a.label = axPriority b.label ∧ a.label ≤ b.label)

instance : DecidableRel axLe := fun a b => by
  unfold axLe; infer_instance

instance : IsTotal Axis axLe where
  total a b := by
    unfold axLe
    rcases Nat.lt_trichotomy (axPriority a.label) (axPriority b.label) with h | h | h
    · exact Or.inl (Or.inl h)
    · rcases le_total a.label b.label with h2 | h2
      · exact Or.inl (Or.inr ⟨h, h2⟩)
      · exact Or.inr (Or.inr ⟨h.symm, h2⟩)
    · exact Or.inr (Or.inl h)

instance : IsTrans Axis axLe where
  trans a b c hab hbc := by
    unfold axLe at *
    rcases hab with h1 | ⟨h1, h1s⟩
    · rcases hbc with h2 | ⟨h2, _⟩
      · exact Or.inl (h1.trans h2)
      · exact Or.inl (h2 ▸ h1)
    · rcases hbc with h2 | ⟨h2, h2s⟩
      · exact Or.inl (h1 ▸ h2)
      · exact Or.inr ⟨h1.trans h2, h1s.trans h2s⟩

/-- `build_variant_axes`: accumulate per-label axes across all blocks,
then sort stably by `(priority, label)`.  Python's `sorted` is stable and
`List.insertionSort` is stable, so they agree on every input. -/
def build_variant_axes (p : Product) : List Axis :=
  List.insertionSort axLe ((buildAxesGo p.variants 0 []).map Prod.snd)

/-- The sparse price dictionary produced by `compute_price_info` (at most
the keys "Price" and "Price / pc"). -/
structure PriceInfo where
  price : Option (Rat × String) := none
  price_pc : Option String := none
deriving DecidableEq, Repr

/-- The non-price ("match") headers of a tabular block. -/
def matchHeaders (headers : List String) : List String :=
  headers.filter (fun h => !is_pricey h)

/-- One row matches the current selections when every match header is
either unconstrained (no selection under its normalized label — note
the empty observed-value list passed to `normalize_axis_label`) or agrees
with the selected value. -/
def rowMatches (selections : List (String × String)) (mh : List String) (row : Row) : Bool :=
  mh.all (fun h =>
    match dictGet selections (normalize_axis_label h []) with
    | none => true
    | some v => clean_option_name (dictGet row.cells h) == v)

/-- Extract the price fields of a matching row into the accumulated price
dictionary (unconditional overwrite). -/
def extractPrice (info : PriceInfo) (row : Row) : PriceInfo :=
  let info1 :=
    match dictGet row.cells "Price" with
    | some (Cell.num q t) => { info with price := some (q, t) }
    | _ => info
  match dictGet row.cells "Price / pc" with
  | some (Cell.str s) => { info1 with price_pc := some s }
  | _ => info1

/-- `compute_price_info`. -/
def compute_price_info (p : Product) (selections : List (String × String)) : PriceInfo :=
  p.variants.foldl
    (fun info v =>
      match v with
      | .standard headers items =>
          let mh := matchHeaders headers
          if mh = [] then info
          else
            match items.find? (fun row => rowMatches selections mh row) with
            | some row => extractPrice info row
            | none => info
      | _ => info)
    {}

/-- A wishlist entry as built inside `add_to_wishlist`. -/
structure WishItem where
  sku : Option String
  title : Option String
  main_image : Option String
  url : Option String
  selections : List (String × String)
  variant_image : Option String
  price_info : PriceInfo
deriving DecidableEq, Repr

/-- The item dictionary constructed by `add_to_wishlist`. -/
def mkWishItem (p : Product) (selections : List (String × String))
    (variant_preview_images : List String) (price_info : PriceInfo) : WishItem :=
  { sku := p.sku
    title := pyOr p.title p.sku
    main_image := best_image p
    url := p.url
    selections := selections
    variant_image := variant_preview_images.head?
    price_info := price_info }

/-- `add_to_wishlist`: append the freshly built item to the session
wishlist list. -/
def add_to_wishlist (wishlist : List WishItem) (p : Product)
    (selections : List (String × String)) (variant_preview_images : List String)
    (price_info : PriceInfo) : List WishItem :=
  wishlist ++ [mkWishItem p selections variant_preview_images price_info]

/-- `ensure_session_defaults` initialises the wishlist to the empty list. -/
def initial_wishlist : List WishItem := []

/-! ### Specification-side definitions

These follow the spec's wording and are compared with the code-derived
definitions above in refinement theorems. -/

/-- The order-preserving, first-seen-wins union of two option lists
(spec wording for the merge of two same-label blocks). -/
def firstSeenUnion (a b : List String) : List String :=
  (a ++ b).foldl insertIfAbsent []

/-- Spec §8: with an empty selection, each qualifying tabular block (at
least one non-price column, at least one row) contributes the price fields
present on its first row. -/
def firstRowPriceFields (p : Product) : PriceInfo :=
  p.variants.foldl
    (fun info v =>
      match v with
      | .standard headers items =>
          if matchHeaders headers = [] then info
          else
            match items with
            | [] => info
            | row :: _ => extractPrice info row
      | _ => info)
    {}

/-- Forget the recorded contributing block indices of an axis. -/
def scrub (ax : Axis) : Axis :=
  { ax with source_blocks := [] }

/-- Whether a variant block is one of the two recognised shapes. -/
def isKnownBlock : VBlock → Bool
  | .other => false
  | _ => true

/-! ### Generic list lemmas -/

theorem foldl_preserve {α β : Type} {P : α → Prop} {f : α → β → α}
    (hf : ∀ a b, P a → P (f a b)) :
    ∀ (l : List β) (a : α), P a → P (l.foldl f a) := by
  intro l
  induction l with
  | nil => intro a ha; exact ha
  | cons b t ih => intro a ha; exact ih (f a b) (hf a b ha)

theorem foldl_establish {α β : Type} {P : α → Prop} {f : α → β → α}
    (hf : ∀ a b, P a → P (f a b)) {c : β} (hc : ∀ a, P (f a c)) {l : List β}
    (hmem : c ∈ l) (a : α) : P (l.foldl f a) := by
  obtain ⟨s, t, rfl⟩ := List.append_of_mem hmem
  rw [List.foldl_append, List.foldl_cons]
  exact foldl_preserve hf t _ (hc _)

theorem find?_eq_head?_of_all {α : Type} {f : α → Bool} :
    ∀ {l : List α}, (∀ x ∈ l, f x = true) → l.find? f = l.head?
  | [], _ => rfl
  | a :: _, h => List.find?_cons_of_pos _ (h a (List.mem_cons_self a _))

/-! ### Lemmas about dictionary lookup -/

theorem dictGet_append_of_some {α : Type} {l1 : List (String × α)} {k : String} {v : α}
    (h : dictGet l1 k = some v) (l2 : List (String × α)) :
    dictGet (l1 ++ l2) k = some v := by
  induction l1 with
  | nil => simp [dictGet] at h
  | cons e t ih =>
      rw [dictGet] at h
      by_cases he : e.1 = k
      · rw [if_pos he] at h
        simp [dictGet, he, h]
      · rw [if_neg he] at h
        simpa [dictGet, he] using ih h

theorem dictGet_append_of_none {α : Type} {l1 : List (String × α)} {k : String}
    (h : dictGet l1 k = none) (l2 : List (String × α)) :
    dictGet (l1 ++ l2) k = dictGet l2 k := by
  induction l1 with
  | nil => rfl
  | cons e t ih =>
      rw [dictGet] at h
      by_cases he : e.1 = k
      · simp [he] at h
      · rw [if_neg he] at h
        simpa [dictGet, he] using ih h

theorem not_mem_keys_of_dictGet_none {α : Type} {l : List (String × α)} {k : String}
    (h : dictGet l k = none) : k ∉ l.map Prod.fst := by
  induction l with
  | nil => simp
  | cons e t ih =>
      rw [dictGet] at h
      by_cases he : e.1 = k
      · simp [he] at h
      · rw [if_neg he] at h
        simpa [he, Ne.symm he] using ih h

theorem mem_of_dictGet_some {α : Type} {l : List (String × α)} {k : String} {v : α}
    (h : dictGet l k = some v) : (k, v) ∈ l := by
  induction l with
  | nil => simp [dictGet] at h
  | cons e t ih =>
      rw [dictGet] at h
      by_cases he : e.1 = k
      · rw [if_pos he] at h
        have h2 : e.2 = v := Option.some.inj h
        have he2 : e = (k, v) := by cases e; simp_all
        rw [← he2]
        exact List.mem_cons_self _ _
      · rw [if_neg he] at h
        exact List.mem_cons_of_mem _ (ih h)

theorem dictGet_map_value {α β : Type} (g : α → β) :
    ∀ (l : List (String × α)) (k : String),
      dictGet (l.map (fun e => (e.1, g e.2))) k = (dictGet l k).map g := by
  intro l
  induction l with
  | nil => intro k; rfl
  | cons e t ih =>
      intro k
      by_cases he : e.1 = k
      · simp [dictGet, he]
      · simp [dictGet, he, ih k]

theorem dictGet_map_replace_eq {l : List (String × Axis)} {k : String} {ax : Axis}
    (h : dictGet l k = some ax) (x : Axis) :
    dictGet (l.map (fun e => if e.1 = k then (k, x) else e)) k = some x := by
  induction l with
  | nil => simp [dictGet] at h
  | cons e t ih =>
      rw [dictGet] at h
      by_cases he : e.1 = k
      · simp [dictGet, he]
      · rw [if_neg he] at h
        simp only [List.map_cons, if_neg he]
        rw [dictGet, if_neg he]
        exact ih h

theorem dictGet_map_replace_ne {k k2 : String} (hne : k2 ≠ k) (x : Axis) :
    ∀ l : List (String × Axis),
      dictGet (l.map (fun e => if e.1 = k then (k, x) else e)) k2 = dictGet l k2 := by
  intro l
  induction l with
  | nil => rfl
  | cons e t ih =>
      by_cases he : e.1 = k
      · simp only [List.map_cons, if_pos he]
        rw [dictGet, dictGet, if_neg (fun h => hne h.symm), if_neg (he ▸ fun h => hne h.symm)]
        exact ih
      · simp only [List.map_cons, if_neg he]
        rw [dictGet, dictGet]
        by_cases he2 : e.1 = k2
        · simp [he2]
        · rw [if_neg he2, if_neg he2]
          exact ih

/-! ### Lemmas about option-list merging -/

theorem mem_insertIfAbsent_of_mem {os : List String} {o : String} (x : String)
    (h : o ∈ os) : o ∈ insertIfAbsent os x := by
  unfold insertIfAbsent
  split
  · exact h
  · exact List.mem_append_left _ h

theorem mem_insertIfAbsent_self (os : List String) (o : String) :
    o ∈ insertIfAbsent os o := by
  unfold insertIfAbsent
  split
  · assumption
  · simp

theorem mem_mergeOpts_of_mem_base {o : String} {base : List String} (new : List String)
    (h : o ∈ base) : o ∈ mergeOpts base new :=
  foldl_preserve (fun _ x hx => mem_insertIfAbsent_of_mem x hx) new base h

theorem mem_mergeOpts_of_mem_new {o : String} {new : List String} (base : List String)
    (h : o ∈ new) : o ∈ mergeOpts base new :=
  foldl_establish (fun _ x hx => mem_insertIfAbsent_of_mem x hx)
    (fun os => mem_insertIfAbsent_self os o) h base

theorem insertIfAbsent_nodup {os : List String} (o : String) (h : os.Nodup) :
    (insertIfAbsent os o).Nodup := by
  unfold insertIfAbsent
  split
  · exact h
  · next hmem => simp [List.nodup_append, h, hmem]

theorem mergeOpts_nodup {base : List String} (new : List String) (h : base.Nodup) :
    (mergeOpts base new).Nodup :=
  foldl_preserve (fun _ x hx => insertIfAbsent_nodup x hx) new base h

theorem mergeOpts_append (base l1 l2 : List String) :
    mergeOpts base (l1 ++ l2) = mergeOpts (mergeOpts base l1) l2 :=
  List.foldl_append _ _ _ _

/-! ### Lemmas about the axis accumulator -/

/-- Well-formedness of the accumulator keyed by normalized label: keys are
distinct, every bucket's label equals its key, and every bucket's option
list has no duplicates. -/
def goodAcc (acc : List (String × Axis)) : Prop :=
  (acc.map Prod.fst).Nodup ∧ ∀ e ∈ acc, e.2.label = e.1 ∧ e.2.options.Nodup

theorem goodAcc_nil : goodAcc [] := ⟨List.nodup_nil, by intro e he; simp at he⟩

theorem mergeContrib_good {acc : List (String × Axis)} (c : Contrib) (idx : Nat)
    (h : goodAcc acc) : goodAcc (mergeContrib acc c idx) := by
  obtain ⟨hkeys, hvals⟩ := h
  unfold mergeContrib
  cases hget : dictGet acc c.label with
  | some ax =>
      have hmem : (c.label, ax) ∈ acc := mem_of_dictGet_some hget
      have hax := hvals _ hmem
      constructor
      · have hfst : ∀ (x : Axis),
            (acc.map (fun e => if e.1 = c.label then (c.label, x) else e)).map Prod.fst
              = acc.map Prod.fst := by
          intro x
          rw [List.map_map]
          apply List.map_congr_left
          intro e _
          by_cases he : e.1 = c.label <;> simp [he]
        rw [hfst]
        exact hkeys
      · intro e he
        obtain ⟨e0, he0, rfl⟩ := List.mem_map.mp he
        by_cases heq : e0.1 = c.label
        · simp only [if_pos heq]
          exact ⟨hax.1, mergeOpts_nodup _ hax.2⟩
        · simp only [if_neg heq]
          exact hvals _ he0
  | none =>
      constructor
      · rw [List.map_append]
        simp only [List.map_cons, List.map_nil]
        rw [List.nodup_append]
        refine ⟨hkeys, List.nodup_singleton _, ?_⟩
        intro a ha hb
        simp only [List.mem_singleton] at hb
        subst hb
        exact not_mem_keys_of_dictGet_none hget ha
      · intro e he
        rcases List.mem_append.mp he with h1 | h2
        · exact hvals _ h1
        · simp only [List.mem_singleton] at h2
          subst h2
          exact ⟨rfl, mergeOpts_nodup _ List.nodup_nil⟩

/-- The contribution just merged is present under its own label, with all
of its options. -/
theorem mergeContrib_lookup_self (acc : List (String × Axis)) (c : Contrib) (idx : Nat) :
    ∃ ax, dictGet (mergeContrib acc c idx) c.label = some ax ∧
      ∀ o ∈ c.options, o ∈ ax.options := by
  unfold mergeContrib
  cases hget : dictGet acc c.label with
  | some ax0 =>
      exact ⟨bumpAxis ax0 c idx, dictGet_map_replace_eq hget _,
             fun o ho => mem_mergeOpts_of_mem_new _ ho⟩
  | none =>
      exact ⟨newAxis c idx,
             by rw [dictGet_append_of_none hget]; simp [dictGet],
             fun o ho => mem_mergeOpts_of_mem_new _ ho⟩

/-- An existing bucket survives any further merge, its options only grow. -/
theorem mergeContrib_lookup_mono {acc : List (String × Axis)} {L : String} {ax : Axis}
    (h : dictGet acc L = some ax) (c : Contrib) (idx : Nat) :
    ∃ ax2, dictGet (mergeContrib acc c idx) L = some ax2 ∧
      ∀ o ∈ ax.options, o ∈ ax2.options := by
  unfold mergeContrib
  cases hget : dictGet acc c.label with
  | some ax0 =>
      by_cases hL : L = c.label
      · subst hL
        rw [h] at hget
        obtain rfl := Option.some.inj hget
        exact ⟨bumpAxis ax c idx, dictGet_map_replace_eq h _,
               fun o ho => mem_mergeOpts_of_mem_base _ ho⟩
      · refine ⟨ax, ?_, fun o ho => ho⟩
        rw [dictGet_map_replace_ne hL _ acc]
        exact h
  | none =>
      refine ⟨ax, ?_, fun o ho => ho⟩
      exact dictGet_append_of_some h _

/-- Generic preservation through the block loop. -/
theorem buildAxesGo_preserve {P : List (String × Axis) → Prop}
    (hP : ∀ acc c idx, P acc → P (mergeContrib acc c idx)) :
    ∀ (blocks : List VBlock) (idx : Nat) (acc : List (String × Axis)),
      P acc → P (buildAxesGo blocks idx acc) := by
  intro blocks
  induction blocks with
  | nil => intro idx acc h; exact h
  | cons b rest ih =>
      intro idx acc h
      rw [buildAxesGo]
      exact ih _ _ (foldl_preserve (fun a c hc => hP a c idx hc) _ _ h)

theorem buildAxesGo_append (l1 l2 : List VBlock) :
    ∀ (idx : Nat) (acc : List (String × Axis)),
      buildAxesGo (l1 ++ l2) idx acc = buildAxesGo l2 (idx + l1.length) (buildAxesGo l1 idx acc) := by
  induction l1 with
  | nil => intro idx acc; simp [buildAxesGo]
  | cons b t ih =>
      intro idx acc
      rw [List.cons_append, buildAxesGo, buildAxesGo, ih]
      congr 1
      simp [Nat.add_assoc, Nat.add_comm 1 t.length]

theorem goodAcc_buildAxesGo (blocks : List VBlock) (idx : Nat) (acc : List (String × Axis))
    (h : goodAcc acc) : goodAcc (buildAxesGo blocks idx acc) :=
  buildAxesGo_preserve (fun _ c i hc => mergeContrib_good c i hc) blocks idx acc h

/-- Any contribution of any block of the product ends up in some final
axis carrying its normalized label and (at least) all of its options. -/
theorem exists_axis_of_contrib {p : Product} {b : VBlock} {c : Contrib}
    (hb : b ∈ p.variants) (hc : c ∈ blockContribs b) :
    ∃ ax ∈ build_variant_axes p, ax.label = c.label ∧ ∀ o ∈ c.options, o ∈ ax.options := by
  obtain ⟨s, t, hv⟩ := List.append_of_mem hb
  have hQpres : ∀ (acc : List (String × Axis)) (c2 : Contrib) (i : Nat),
      (∃ ax, dictGet acc c.label = some ax ∧ ∀ o ∈ c.options, o ∈ ax.options) →
      ∃ ax, dictGet (mergeContrib acc c2 i) c.label = some ax ∧
        ∀ o ∈ c.options, o ∈ ax.options := by
    intro acc c2 i ⟨ax, hget, hsub⟩
    obtain ⟨ax2, hget2, hmono⟩ := mergeContrib_lookup_mono hget c2 i
    exact ⟨ax2, hget2, fun o ho => hmono o (hsub o ho)⟩
  have hQfold : ∀ (i : Nat) (acc : List (String × Axis)),
      ∃ ax, dictGet ((blockContribs b).foldl (fun a c2 => mergeContrib a c2 i) acc) c.label
          = some ax ∧ ∀ o ∈ c.options, o ∈ ax.options := by
    intro i acc
    exact foldl_establish (fun a c2 => hQpres a c2 i)
      (fun a => mergeContrib_lookup_self a c i) hc acc
  have hQfinal : ∃ ax, dictGet (buildAxesGo p.variants 0 []) c.label = some ax ∧
      ∀ o ∈ c.options, o ∈ ax.options := by
    rw [hv, buildAxesGo_append, buildAxesGo]
    exact buildAxesGo_preserve (fun acc c2 i h2 => hQpres acc c2 i h2) t _ _ (hQfold _ _)
  obtain ⟨ax, hget, hsub⟩ := hQfinal
  have hgood := goodAcc_buildAxesGo p.variants 0 [] goodAcc_nil
  have hmem : (c.label, ax) ∈ buildAxesGo p.variants 0 [] := mem_of_dictGet_some hget
  have hlab : ax.label = c.label := (hgood.2 _ hmem).1
  refine ⟨ax, ?_, hlab, hsub⟩
  unfold build_variant_axes
  rw [List.mem_insertionSort]
  exact List.mem_map.mpr ⟨(c.label, ax), hmem, rfl⟩

/-- The normalizer maps any raw label with a non-empty, all-mm observed
value list to "Length". -/
theorem normalize_mm {option_names : List String} (raw : String)
    (hne : option_names ≠ []) (hmm : ∀ o ∈ option_names, mmMatch o) :
    normalize_axis_label raw option_names = "Length" := by
  unfold normalize_axis_label
  rw [if_pos ⟨hne, hmm⟩]

/-- The column of a tabular block whose observed (cleaned, deduplicated)
option values are non-empty and all mm-shaped contributes to an axis of
the final output labeled "Length" containing all of those values. -/
theorem exists_length_axis {p : Product} {headers : List String} {items : List Row}
    {h : String} (hb : VBlock.standard headers items ∈ p.variants) (hh : h ∈ headers)
    (hp : is_pricey h = false) (hne : (collectColumn h items).1 ≠ [])
    (hmm : ∀ o ∈ (collectColumn h items).1, mmMatch o) :
    ∃ ax ∈ build_variant_axes p, ax.label = "Length" ∧
      ∀ o ∈ (collectColumn h items).1, o ∈ ax.options := by
  have hc : columnContrib h items ∈ blockContribs (VBlock.standard headers items) := by
    unfold blockContribs
    exact List.mem_map_of_mem _ (List.mem_filter.mpr ⟨hh, by simp [hp]⟩)
  have hlab : (columnContrib h items).label = "Length" := normalize_mm h hne hmm
  have hres := exists_axis_of_contrib hb hc
  rw [hlab] at hres
  exact hres

/-- C3: for every product with a tabular column whose observed option
values are non-empty and all match the numeric-mm pattern, `buildAxes`
produces an axis for that column whose label is "Length", regardless of
the column's raw header. -/
theorem c3_mm_values_force_length_label (p : Product) (headers : List String)
    (items : List Row) (h : String)
    (hb : VBlock.standard headers items ∈ p.variants) (hh : h ∈ headers)
    (hp : is_pricey h = false) (hne : (collectColumn h items).1 ≠ [])
    (hmm : ∀ o ∈ (collectColumn h items).1, mmMatch o) :
    ∃ ax ∈ build_variant_axes p, ax.label = "Length" ∧
      ∀ o ∈ (collectColumn h items).1, o ∈ ax.options :=
  exists_length_axis hb hh hp hne hmm

/-- C5: for every product the axis list has pairwise distinct labels, and
no axis option list contains a duplicate. -/
theorem c5_no_duplicate_labels_or_options (p : Product) :
    ((build_variant_axes p).map (fun ax => ax.label)).Nodup ∧
      ∀ ax ∈ build_variant_axes p, ax.options.Nodup := by
  obtain ⟨hkeys, hvals⟩ := goodAcc_buildAxesGo p.variants 0 [] goodAcc_nil
  constructor
  · have hperm : List.Perm (build_variant_axes p)
        ((buildAxesGo p.variants 0 []).map Prod.snd) := by
      unfold build_variant_axes
      exact List.perm_insertionSort axLe _
    apply (hperm.map (fun ax => ax.label)).nodup_iff.mpr
    have heq : ((buildAxesGo p.variants 0 []).map Prod.snd).map (fun ax => ax.label)
        = (buildAxesGo p.variants 0 []).map Prod.fst := by
      rw [List.map_map]
      apply List.map_congr_left
      intro e he
      exact (hvals e he).1
    rw [heq]
    exact hkeys
  · intro ax hax
    rw [build_variant_axes, List.mem_insertionSort] at hax
    obtain ⟨e, he, rfl⟩ := List.mem_map.mp hax
    exact (hvals e he).2

/-- C6: the axis list is sorted by the fixed priority order Length, Size,
Gauge, Color, Packing Option, Rack (priorities 0..5, all other labels 99),
ties broken alphabetically by label — i.e. pairwise ordered by the
lexicographic key (priority, label). -/
theorem c6_axes_sorted_by_priority (p : Product) :
    List.Sorted axLe (build_variant_axes p) :=
  List.sorted_insertionSort axLe _

/-- C4: a product made of two blocks (either order, either shape) whose
single contributions both normalize to "Color" yields exactly one axis,
labeled "Color", whose options are the order-preserving first-seen-wins
union of the two blocks' option lists. -/
theorem c4_color_blocks_merge (p : Product) (b1 b2 : VBlock)
    (o1 o2 : List String) (m1 m2 : List (String × String))
    (hv : p.variants = [b1, b2])
    (h1 : blockContribs b1 = [{ label := "Color", options := o1, image_map := m1 }])
    (h2 : blockContribs b2 = [{ label := "Color", options := o2, image_map := m2 }]) :
    ∃ ax, build_variant_axes p = [ax] ∧ ax.label = "Color" ∧
      ax.options = firstSeenUnion o1 o2 := by
  unfold build_variant_axes
  rw [hv]
  rw [show buildAxesGo [b1, b2] 0 [] =
        buildAxesGo [b2] 1 ((blockContribs b1).foldl (fun a c => mergeContrib a c 0) [])
      from rfl]
  rw [h1]
  simp only [List.foldl_cons, List.foldl_nil]
  rw [show mergeContrib []
        { label := "Color", options := o1, image_map := m1 } 0 =
        [("Color", newAxis { label := "Color", options := o1, image_map := m1 } 0)]
      from rfl]
  rw [show buildAxesGo [b2] 1
        [("Color", newAxis { label := "Color", options := o1, image_map := m1 } 0)] =
        (blockContribs b2).foldl (fun a c => mergeContrib a c 1)
          [("Color", newAxis { label := "Color", options := o1, image_map := m1 } 0)]
      from rfl]
  rw [h2]
  simp only [List.foldl_cons, List.foldl_nil]
  rw [show mergeContrib
        [("Color", newAxis { label := "Color", options := o1, image_map := m1 } 0)]
        { label := "Color", options := o2, image_map := m2 } 1 =
        [("Color",
          bumpAxis (newAxis { label := "Color", options := o1, image_map := m1 } 0)
            { label := "Color", options := o2, image_map := m2 } 1)]
      from by
        unfold mergeContrib
        rw [show dictGet
              [("Color", newAxis { label := "Color", options := o1, image_map := m1 } 0)]
              "Color" =
              some (newAxis { label := "Color", options := o1, image_map := m1 } 0)
            from rfl]
        simp]
  refine ⟨bumpAxis (newAxis { label := "Color", options := o1, image_map := m1 } 0)
      { label := "Color", options := o2, image_map := m2 } 1, ?_, rfl, ?_⟩
  · simp [List.insertionSort, List.orderedInsert]
  · show mergeOpts (mergeOpts [] o1) o2 = firstSeenUnion o1 o2
    unfold firstSeenUnion
    rw [show (o1 ++ o2).foldl insertIfAbsent [] = mergeOpts [] (o1 ++ o2) from rfl]
    rw [mergeOpts_append]

/-! ### Concrete data for counterexamples and witnesses -/

def noPrice : PriceInfo := {}

def c4block1 : VBlock :=
  .standard ["CZ Color", "Price"]
    [{ cells := [("CZ Color", .str "Clear"), ("Price", .num 1 "1")] }]

def c4block2 : VBlock :=
  .color (some "Crystal Color") [{ name := some (.str "AB") }, { name := some (.str "Clear") }]

def c4Product : Product := { variants := [c4block1, c4block2] }

/-- Witness for C4: a "CZ Color" table column merged with a
"Crystal Color" swatch block. -/
theorem c4_witness :
    (c4Product.variants = [c4block1, c4block2] ∧
     blockContribs c4block1 = [{ label := "Color", options := ["Clear"], image_map := [] }] ∧
     blockContribs c4block2
       = [{ label := "Color", options := ["AB", "Clear"], image_map := [] }]) ∧
    ∃ ax, build_variant_axes c4Product = [ax] ∧ ax.label = "Color" ∧
      ax.options = firstSeenUnion ["Clear"] ["AB", "Clear"] :=
  ⟨⟨rfl, by decide, by decide⟩,
   c4_color_blocks_merge c4Product c4block1 c4block2 ["Clear"] ["AB", "Clear"] [] []
     rfl (by decide) (by decide)⟩

/-- Witness data for C3: an oddly named column whose values are all mm. -/
def c3row1 : Row := { cells := [("Weird", Cell.str "8.00mm")] }

def c3row2 : Row := { cells := [("Weird", Cell.str "10mm")] }

def c3Product : Product := { variants := [VBlock.standard ["Weird"] [c3row1, c3row2]] }

/-- Witness for C3. -/
theorem c3_witness :
    (VBlock.standard ["Weird"] [c3row1, c3row2] ∈ c3Product.variants ∧
     "Weird" ∈ ["Weird"] ∧ is_pricey "Weird" = false ∧
     (collectColumn "Weird" [c3row1, c3row2]).1 ≠ [] ∧
     ∀ o ∈ (collectColumn "Weird" [c3row1, c3row2]).1, mmMatch o) ∧
    ∃ ax ∈ build_variant_axes c3Product, ax.label = "Length" ∧
      ∀ o ∈ (collectColumn "Weird" [c3row1, c3row2]).1, o ∈ ax.options :=
  ⟨⟨by decide, by decide, by decide, by decide, by decide⟩,
   c3_mm_values_force_length_label c3Product ["Weird"] [c3row1, c3row2] "Weird"
     (by decide) (by decide) (by decide) (by decide) (by decide)⟩

/-! ### C7: empty selection returns each qualifying block's first-row price -/

theorem rowMatches_nil (mh : List String) (row : Row) : rowMatches [] mh row = true := by
  unfold rowMatches
  apply List.all_eq_true.mpr
  intro x _
  rfl

/-- C7: with an empty selection every row matches trivially, so the price
resolver extracts, block after qualifying block, the price fields of the
block's first row (the spec-side `firstRowPriceFields`). -/
theorem c7_empty_selection_first_rows (p : Product) :
    compute_price_info p [] = firstRowPriceFields p := by
  unfold compute_price_info firstRowPriceFields
  apply List.foldl_ext
  intro info v _
  cases v with
  | standard headers items =>
      by_cases hmh : matchHeaders headers = []
      · simp [hmh]
      · simp only [if_neg hmh]
        rw [find?_eq_head?_of_all (fun row _ => rowMatches_nil (matchHeaders headers) row)]
        cases items <;> rfl
  | color label options => rfl
  | other => rfl

/-! ### C2: price fields across blocks -/

/-- The first matching row of a block under the given selections, if the
block is tabular with at least one non-price column (the rows the price
loop extracts from). -/
def blockFirstMatch (sel : List (String × String)) : VBlock → Option Row
  | .standard headers items =>
      if matchHeaders headers = [] then none
      else items.find? (fun row => rowMatches sel (matchHeaders headers) row)
  | _ => none

/-- The numeric "Price" cell of a row, exactly as `extractPrice` copies it. -/
def rowPriceNum (row : Row) : Option (Rat × String) :=
  match dictGet row.cells "Price" with
  | some (Cell.num q t) => some (q, t)
  | _ => none

/-- The string "Price / pc" cell of a row, exactly as `extractPrice` copies it. -/
def rowPricePc (row : Row) : Option String :=
  match dictGet row.cells "Price / pc" with
  | some (Cell.str s) => some s
  | _ => none

/-- The per-block step of the price loop, phrased through `blockFirstMatch`. -/
def priceStep (sel : List (String × String)) (info : PriceInfo) (v : VBlock) : PriceInfo :=
  match blockFirstMatch sel v with
  | some row => extractPrice info row
  | none => info

theorem priceStep_of_some {sel : List (String × String)} {v : VBlock} {row : Row}
    (h : blockFirstMatch sel v = some row) (info : PriceInfo) :
    priceStep sel info v = extractPrice info row := by
  unfold priceStep
  rw [h]

theorem priceStep_of_none {sel : List (String × String)} {v : VBlock}
    (h : blockFirstMatch sel v = none) (info : PriceInfo) :
    priceStep sel info v = info := by
  unfold priceStep
  rw [h]

theorem compute_price_info_eq_fold (p : Product) (sel : List (String × String)) :
    compute_price_info p sel = p.variants.foldl (priceStep sel) {} := by
  unfold compute_price_info
  apply List.foldl_ext
  intro info v _
  cases v with
  | standard headers items =>
      by_cases hmh : matchHeaders headers = []
      · simp [priceStep, blockFirstMatch, hmh]
      · simp only [priceStep, blockFirstMatch, if_neg hmh]
  | color label options => rfl
  | other => rfl

theorem extractPrice_price_eq (info : PriceInfo) (row : Row) :
    (extractPrice info row).price
      = match rowPriceNum row with
        | some x => some x
        | none => info.price := by
  unfold extractPrice rowPriceNum
  cases dictGet row.cells "Price" with
  | none =>
      cases dictGet row.cells "Price / pc" with
      | none => rfl
      | some c2 => cases c2 <;> rfl
  | some c =>
      cases c with
      | str s =>
          cases dictGet row.cells "Price / pc" with
          | none => rfl
          | some c2 => cases c2 <;> rfl
      | num q t =>
          cases dictGet row.cells "Price / pc" with
          | none => rfl
          | some c2 => cases c2 <;> rfl

theorem extractPrice_price_pc_eq (info : PriceInfo) (row : Row) :
    (extractPrice info row).price_pc
      = match rowPricePc row with
        | some s => some s
        | none => info.price_pc := by
  unfold extractPrice rowPricePc
  cases dictGet row.cells "Price" with
  | none =>
      cases dictGet row.cells "Price / pc" with
      | none => rfl
      | some c2 => cases c2 <;> rfl
  | some c =>
      cases c with
      | str s =>
          cases dictGet row.cells "Price / pc" with
          | none => rfl
          | some c2 => cases c2 <;> rfl
      | num q t =>
          cases dictGet row.cells "Price / pc" with
          | none => rfl
          | some c2 => cases c2 <;> rfl

theorem foldl_preserve_mem {α β : Type} (P : α → Prop) {f : α → β → α} :
    ∀ (l : List β), (∀ a, ∀ b ∈ l, P a → P (f a b)) → ∀ (a : α), P a → P (l.foldl f a) := by
  intro l
  induction l with
  | nil => intro _ a h; exact h
  | cons b t ih =>
      intro hf a h
      rw [List.foldl_cons]
      exact ih (fun a2 b2 hb2 h2 => hf a2 b2 (List.mem_cons_of_mem _ hb2) h2) _
        (hf a b (List.mem_cons_self _ _) h)

/-- C2 amended: price fields are overwritten unconditionally across
blocks, so the final value of each price field name — the numeric "Price"
and the string "Price / pc" alike — comes from the last qualifying block
whose first matching row supplies that field, whatever blocks precede it
and whatever non-supplying blocks follow it. -/
theorem c2_last_supplier_wins (p : Product) (sel : List (String × String))
    (vs1 : List VBlock) (b : VBlock) (vs2 : List VBlock) (row : Row)
    (hv : p.variants = vs1 ++ b :: vs2)
    (hfm : blockFirstMatch sel b = some row) :
    (∀ q t, rowPriceNum row = some (q, t) →
      (∀ b2 ∈ vs2, ∀ row2, blockFirstMatch sel b2 = some row2 → rowPriceNum row2 = none) →
      (compute_price_info p sel).price = some (q, t)) ∧
    (∀ s, rowPricePc row = some s →
      (∀ b2 ∈ vs2, ∀ row2, blockFirstMatch sel b2 = some row2 → rowPricePc row2 = none) →
      (compute_price_info p sel).price_pc = some s) := by
  rw [compute_price_info_eq_fold, hv, List.foldl_append, List.foldl_cons,
      priceStep_of_some hfm]
  constructor
  · intro q t hq hlater
    apply foldl_preserve_mem (fun info : PriceInfo => info.price = some (q, t))
    · intro a b2 hb2 hprev
      cases hbf : blockFirstMatch sel b2 with
      | none =>
          rw [priceStep_of_none hbf]
          exact hprev
      | some row2 =>
          rw [priceStep_of_some hbf, extractPrice_price_eq, hlater b2 hb2 row2 hbf]
          exact hprev
    · rw [extractPrice_price_eq, hq]
  · intro s hs hlater
    apply foldl_preserve_mem (fun info : PriceInfo => info.price_pc = some s)
    · intro a b2 hb2 hprev
      cases hbf : blockFirstMatch sel b2 with
      | none =>
          rw [priceStep_of_none hbf]
          exact hprev
      | some row2 =>
          rw [priceStep_of_some hbf, extractPrice_price_pc_eq, hlater b2 hb2 row2 hbf]
          exact hprev
    · rw [extractPrice_price_pc_eq, hs]

def c2row1 : Row := { cells := [("Color", .str "Red"), ("Price", .num 1 "1")] }

def c2row2 : Row := { cells := [("Color", .str "Red"), ("Price", .num 2 "2")] }

def c2row3 : Row := { cells := [("Color", .str "Red")] }

def c2Product : Product :=
  { variants := [.standard ["Color", "Price"] [c2row1],
                 .standard ["Color", "Price"] [c2row2]] }

/-- Counterexample to C2 as stated: both blocks' first (and only) rows
match the empty selection; the earlier block populates "Price" with 1,
yet the final result carries the later block's 2 — the earlier non-blank
value is NOT kept. -/
theorem c2_counterexample :
    (compute_price_info c2Product []).price = some ((2 : Rat), "2") ∧
      (compute_price_info c2Product []).price ≠ some ((1 : Rat), "1") := by
  constructor <;> decide

def c2ProductLater : Product :=
  { variants := [.standard ["Color", "Price"] [c2row1],
                 .standard ["Color", "Price"] [c2row2],
                 .standard ["Color"] [c2row3]] }

/-- Witness for the amended C2: the second of three blocks is the last
supplier of "Price" (the third matches but carries no price fields), and
its value 2 overwrites the first block's 1. -/
theorem c2_witness :
    (c2ProductLater.variants
        = [VBlock.standard ["Color", "Price"] [c2row1]]
            ++ VBlock.standard ["Color", "Price"] [c2row2]
              :: [VBlock.standard ["Color"] [c2row3]] ∧
     blockFirstMatch [] (VBlock.standard ["Color", "Price"] [c2row2]) = some c2row2 ∧
     rowPriceNum c2row2 = some (2, "2") ∧
     (∀ b2 ∈ [VBlock.standard ["Color"] [c2row3]], ∀ row2,
        blockFirstMatch [] b2 = some row2 → rowPriceNum row2 = none)) ∧
    (compute_price_info c2ProductLater []).price = some ((2 : Rat), "2") :=
  ⟨⟨rfl, by decide, by decide, by
      intro b2 hb2 row2 hr
      rw [List.mem_singleton] at hb2
      subst hb2
      rw [show blockFirstMatch [] (VBlock.standard ["Color"] [c2row3]) = some c2row3
          from by decide] at hr
      obtain rfl := Option.some.inj hr
      decide⟩,
   (c2_last_supplier_wins c2ProductLater []
       [VBlock.standard ["Color", "Price"] [c2row1]]
       (VBlock.standard ["Color", "Price"] [c2row2])
       [VBlock.standard ["Color"] [c2row3]] c2row2 rfl (by decide)).1 2 "2"
     (by decide)
     (by
       intro b2 hb2 row2 hr
       rw [List.mem_singleton] at hb2
       subst hb2
       rw [show blockFirstMatch [] (VBlock.standard ["Color"] [c2row3]) = some c2row3
           from by decide] at hr
       obtain rfl := Option.some.inj hr
       decide)⟩

/-! ### C1: the wishlist add operation -/

def c1Product : Product := { sku := some "ER-100", title := some "Earring" }

def c1Sel : List (String × String) := [("Color", "Clear")]

/-- Counterexample to C1 as stated: adding the identical (sku, selection)
pair twice produces a wishlist of two separate identical lines — there is
no key-based aggregation and no quantity field at all. -/
theorem c1_counterexample :
    (add_to_wishlist (add_to_wishlist initial_wishlist c1Product c1Sel [] noPrice)
        c1Product c1Sel [] noPrice)
      = [mkWishItem c1Product c1Sel [] noPrice, mkWishItem c1Product c1Sel [] noPrice] ∧
    (add_to_wishlist (add_to_wishlist initial_wishlist c1Product c1Sel [] noPrice)
        c1Product c1Sel [] noPrice).length ≠ 1 := by
  constructor <;> decide

/-- C1 amended: `add` appends unconditionally, so two adds of the same
(sku, selection) yield two separate identical lines appended to the
wishlist, never one aggregated line. -/
theorem c1_add_appends_duplicate_lines (wl : List WishItem) (p : Product)
    (sel : List (String × String)) (prev : List String) (info : PriceInfo) :
    add_to_wishlist (add_to_wishlist wl p sel prev info) p sel prev info
      = wl ++ [mkWishItem p sel prev info, mkWishItem p sel prev info] := by
  simp [add_to_wishlist]

/-! ### C8: blank option values normalize to the sentinel -/

theorem pyStrip_of_all_space {s : String} (h : s.data.all isPySpace = true) :
    pyStrip s = "" := by
  unfold pyStrip
  have h1 : s.data.dropWhile isPySpace = [] := by
    rw [List.dropWhile_eq_nil_iff]
    intro x hx
    exact List.all_eq_true.mp h x hx
  rw [h1]
  rfl

/-- C8: a missing (None) option value and a whitespace-only option value
both clean to the sentinel "Unspecified", and no value ever cleans to the
empty string. -/
theorem c8_blank_options_unspecified (s : String) (v : Option Cell)
    (hs : s.data.all isPySpace = true) :
    clean_option_name none = "Unspecified" ∧
      clean_option_name (some (Cell.str s)) = "Unspecified" ∧
      clean_option_name v ≠ "" := by
  refine ⟨rfl, ?_, ?_⟩
  · unfold clean_option_name
    simp only [cellStr]
    rw [pyStrip_of_all_space hs]
    decide
  · cases v with
    | none => decide
    | some c =>
        show (if pyStrip (cellStr c) = "" then "Unspecified" else pyStrip (cellStr c)) ≠ ""
        by_cases hb : pyStrip (cellStr c) = ""
        · rw [if_pos hb]
          decide
        · rw [if_neg hb]
          exact hb

/-- Witness for C8 at a two-space string and a non-blank cell. -/
theorem c8_witness :
    ("  ".data.all isPySpace = true) ∧
    (clean_option_name none = "Unspecified" ∧
      clean_option_name (some (Cell.str "  ")) = "Unspecified" ∧
      clean_option_name (some (Cell.str "x")) ≠ "") :=
  ⟨by decide, c8_blank_options_unspecified "  " (some (Cell.str "x")) (by decide)⟩

/-! ### C9: unknown block types are skipped, up to recorded indices -/

def scrubAcc (acc : List (String × Axis)) : List (String × Axis) :=
  acc.map (fun e => (e.1, scrub e.2))

theorem scrub_eq_iff {a b : Axis} :
    scrub a = scrub b ↔
      a.label = b.label ∧ a.options = b.options ∧ a.image_map = b.image_map ∧ a.kind = b.kind := by
  cases a
  cases b
  simp [scrub, Axis.mk.injEq]

theorem scrub_bumpAxis_congr {ax ax2 : Axis} (c : Contrib) (i j : Nat)
    (h : scrub ax = scrub ax2) : scrub (bumpAxis ax c i) = scrub (bumpAxis ax2 c j) := by
  obtain ⟨h1, h2, h3, h4⟩ := scrub_eq_iff.mp h
  apply scrub_eq_iff.mpr
  simp [bumpAxis, h1, h2, h3, h4]

theorem scrubAcc_map_replace (acc : List (String × Axis)) (L : String) (x : Axis) :
    scrubAcc (acc.map (fun e => if e.1 = L then (L, x) else e))
      = (scrubAcc acc).map (fun e => if e.1 = L then (L, scrub x) else e) := by
  unfold scrubAcc
  rw [List.map_map, List.map_map]
  apply List.map_congr_left
  intro e _
  by_cases he : e.1 = L <;> simp [he]

theorem scrubAcc_append (acc : List (String × Axis)) (e : String × Axis) :
    scrubAcc (acc ++ [e]) = scrubAcc acc ++ [(e.1, scrub e.2)] := by
  simp [scrubAcc]

theorem dictGet_scrubAcc (acc : List (String × Axis)) (k : String) :
    dictGet (scrubAcc acc) k = (dictGet acc k).map scrub :=
  dictGet_map_value scrub acc k

theorem scrubAcc_mergeContrib {acc acc2 : List (String × Axis)} (c : Contrib) (i j : Nat)
    (h : scrubAcc acc = scrubAcc acc2) :
    scrubAcc (mergeContrib acc c i) = scrubAcc (mergeContrib acc2 c j) := by
  have hget : (dictGet acc c.label).map scrub = (dictGet acc2 c.label).map scrub := by
    rw [← dictGet_scrubAcc, ← dictGet_scrubAcc, h]
  unfold mergeContrib
  cases h1 : dictGet acc c.label with
  | none =>
      cases h2 : dictGet acc2 c.label with
      | none =>
          rw [scrubAcc_append, scrubAcc_append, h]
          have : scrub (newAxis c i) = scrub (newAxis c j) := by
            apply scrub_eq_iff.mpr
            simp [newAxis]
          rw [this]
      | some ax2 =>
          rw [h1, h2] at hget
          simp at hget
  | some ax =>
      cases h2 : dictGet acc2 c.label with
      | none =>
          rw [h1, h2] at hget
          simp at hget
      | some ax2 =>
          have hax : scrub ax = scrub ax2 := by
            rw [h1, h2] at hget
            simpa using hget
          rw [scrubAcc_map_replace, scrubAcc_map_replace, h,
              scrub_bumpAxis_congr c i j hax]

theorem scrubAcc_foldl_contribs (cs : List Contrib) (i j : Nat) :
    ∀ {acc acc2 : List (String × Axis)}, scrubAcc acc = scrubAcc acc2 →
      scrubAcc (cs.foldl (fun a c => mergeContrib a c i) acc)
        = scrubAcc (cs.foldl (fun a c => mergeContrib a c j) acc2) := by
  induction cs with
  | nil => intro acc acc2 h; exact h
  | cons c t ih => intro acc acc2 h; exact ih (scrubAcc_mergeContrib c i j h)

theorem scrubAcc_buildAxesGo_filter :
    ∀ (blocks : List VBlock) (i j : Nat) {acc acc2 : List (String × Axis)},
      scrubAcc acc = scrubAcc acc2 →
      scrubAcc (buildAxesGo blocks i acc)
        = scrubAcc (buildAxesGo (blocks.filter isKnownBlock) j acc2) := by
  intro blocks
  induction blocks with
  | nil => intro i j acc acc2 h; exact h
  | cons b rest ih =>
      intro i j acc acc2 h
      cases b with
      | other =>
          rw [buildAxesGo]
          rw [show (VBlock.other :: rest).filter isKnownBlock = rest.filter isKnownBlock from by
            simp [List.filter, isKnownBlock]]
          simp only [blockContribs, List.foldl_nil]
          exact ih (i + 1) j h
      | standard headers items =>
          rw [buildAxesGo]
          rw [show (VBlock.standard headers items :: rest).filter isKnownBlock
                = VBlock.standard headers items :: rest.filter isKnownBlock from by
            simp [List.filter, isKnownBlock]]
          rw [buildAxesGo]
          exact ih (i + 1) (j + 1) (scrubAcc_foldl_contribs _ i j h)
      | color label options =>
          rw [buildAxesGo]
          rw [show (VBlock.color label options :: rest).filter isKnownBlock
                = VBlock.color label options :: rest.filter isKnownBlock from by
            simp [List.filter, isKnownBlock]]
          rw [buildAxesGo]
          exact ih (i + 1) (j + 1) (scrubAcc_foldl_contribs _ i j h)

theorem axLe_scrub (a b : Axis) (h : axLe a b) : axLe (scrub a) (scrub b) := h

theorem axLe_scrub_rev (a b : Axis) (h : axLe (scrub a) (scrub b)) : axLe a b := h

theorem scrub_orderedInsert (a : Axis) :
    ∀ l : List Axis,
      (List.orderedInsert axLe a l).map scrub
        = List.orderedInsert axLe (scrub a) (l.map scrub)
  | [] => rfl
  | b :: t => by
      by_cases h : axLe a b
      · rw [List.orderedInsert, if_pos h, List.map_cons, List.map_cons,
            List.orderedInsert, if_pos (axLe_scrub a b h)]
      · rw [List.orderedInsert, if_neg h, List.map_cons, List.map_cons,
            List.orderedInsert, if_neg (fun h2 => h (axLe_scrub_rev a b h2)),
            scrub_orderedInsert a t]

theorem scrub_insertionSort :
    ∀ l : List Axis,
      (List.insertionSort axLe l).map scrub = List.insertionSort axLe (l.map scrub)
  | [] => rfl
  | a :: t => by
      rw [List.insertionSort, List.map_cons, List.insertionSort,
          scrub_orderedInsert, scrub_insertionSort t]

theorem map_snd_scrubAcc (l : List (String × Axis)) :
    (l.map Prod.snd).map scrub = (scrubAcc l).map Prod.snd := by
  unfold scrubAcc
  rw [List.map_map, List.map_map]
  rfl

/-- C9 amended: unrecognised block types contribute no axis and no
options — the axis list of a product equals, up to the recorded
contributing block indices (`scrub`), the axis list of the same product
with those blocks removed. -/
theorem c9_unknown_blocks_skipped (p : Product) :
    (build_variant_axes p).map scrub
      = (build_variant_axes
          { p with variants := p.variants.filter isKnownBlock }).map scrub := by
  unfold build_variant_axes
  rw [scrub_insertionSort, scrub_insertionSort]
  rw [map_snd_scrubAcc, map_snd_scrubAcc]
  rw [scrubAcc_buildAxesGo_filter p.variants 0 0 rfl]

def c9Product : Product :=
  { variants := [VBlock.other, VBlock.color (some "X") [{ name := some (.str "Red") }]] }

/-- Counterexample to C9 as stated: removing the unknown block shifts the
enumeration index recorded in `source_blocks` ([1] versus [0]), so the
outputs are not literally equal. -/
theorem c9_counterexample :
    build_variant_axes c9Product
      ≠ build_variant_axes
          { c9Product with variants := c9Product.variants.filter isKnownBlock } := by
  decide

/-! ### C10: row matching never applies the mm heuristic -/

/-- The headers of a tabular block (other blocks carry none). -/
def blockHeaders : VBlock → List String
  | .standard headers _ => headers
  | _ => []

theorem rowMatches_unconstrained {sel : List (String × String)} {mh : List String}
    (h : ∀ x ∈ mh, dictGet sel (normalize_axis_label x []) = none) (row : Row) :
    rowMatches sel mh row = true := by
  unfold rowMatches
  apply List.all_eq_true.mpr
  intro x hx
  rw [h x hx]

/-- A selection constraining none of the normalized (with empty observed
values) match headers of any tabular block resolves prices exactly like
the empty selection. -/
theorem compute_price_info_wildcard (p : Product) (sel : List (String × String))
    (h : ∀ b ∈ p.variants, ∀ x ∈ matchHeaders (blockHeaders b),
        dictGet sel (normalize_axis_label x []) = none) :
    compute_price_info p sel = compute_price_info p [] := by
  unfold compute_price_info
  apply List.foldl_ext
  intro info v hv
  cases v with
  | standard headers items =>
      by_cases hmh : matchHeaders headers = []
      · simp [hmh]
      · simp only [if_neg hmh]
        have h2 : ∀ x ∈ matchHeaders headers,
            dictGet sel (normalize_axis_label x []) = none := h _ hv
        rw [find?_eq_head?_of_all (fun row _ => rowMatches_unconstrained h2 row),
            find?_eq_head?_of_all (fun row _ => rowMatches_nil (matchHeaders headers) row)]
  | color label options => rfl
  | other => rfl

/-- C10: in `compute_price_info` every header is normalized against an
empty observed-value list, so the mm heuristic never fires during row
matching.  A column whose values are all mm-shaped but whose header does
not alias to "Length" yields a "Length" axis in `buildAxes`, yet a
selection containing only a "Length" entry leaves that column an
unconstrained wildcard: price resolution behaves exactly as with an empty
selection. -/
theorem c10_matching_ignores_mm_heuristic (p : Product) (headers : List String)
    (items : List Row) (h : String) (v : String)
    (hb : VBlock.standard headers items ∈ p.variants) (hh : h ∈ headers)
    (hp : is_pricey h = false) (hne : (collectColumn h items).1 ≠ [])
    (hmm : ∀ o ∈ (collectColumn h items).1, mmMatch o)
    (hnl : ∀ b ∈ p.variants, ∀ x ∈ matchHeaders (blockHeaders b),
        normalize_axis_label x [] ≠ "Length") :
    (∃ ax ∈ build_variant_axes p, ax.label = "Length" ∧
        ∀ o ∈ (collectColumn h items).1, o ∈ ax.options) ∧
      compute_price_info p [("Length", v)] = compute_price_info p [] := by
  constructor
  · exact exists_length_axis hb hh hp hne hmm
  · apply compute_price_info_wildcard
    intro b hbv x hx
    have hne2 : normalize_axis_label x [] ≠ "Length" := hnl b hbv x hx
    show dictGet [("Length", v)] (normalize_axis_label x []) = none
    unfold dictGet
    rw [if_neg (fun heq => hne2 heq.symm)]
    rfl

def c10row1 : Row := { cells := [("Size", .str "8.00mm"), ("Price", .num 1 "1")] }

def c10row2 : Row := { cells := [("Size", .str "10.00mm"), ("Price", .num 2 "2")] }

def c10Product : Product :=
  { variants := [VBlock.standard ["Size", "Price"] [c10row1, c10row2]] }

/-- Witness for C10: header "Size" with all-mm values; selecting
Length = 10.00mm still resolves like the empty selection. -/
theorem c10_witness :
    (VBlock.standard ["Size", "Price"] [c10row1, c10row2] ∈ c10Product.variants ∧
     "Size" ∈ ["Size", "Price"] ∧ is_pricey "Size" = false ∧
     (collectColumn "Size" [c10row1, c10row2]).1 ≠ [] ∧
     (∀ o ∈ (collectColumn "Size" [c10row1, c10row2]).1, mmMatch o) ∧
     (∀ b ∈ c10Product.variants, ∀ x ∈ matchHeaders (blockHeaders b),
        normalize_axis_label x [] ≠ "Length")) ∧
    ((∃ ax ∈ build_variant_axes c10Product, ax.label = "Length" ∧
        ∀ o ∈ (collectColumn "Size" [c10row1, c10row2]).1, o ∈ ax.options) ∧
      compute_price_info c10Product [("Length", "10.00mm")]
        = compute_price_info c10Product []) :=
  ⟨⟨by decide, by decide, by decide, by decide, by decide, by decide⟩,
   c10_matching_ignores_mm_heuristic c10Product ["Size", "Price"] [c10row1, c10row2]
     "Size" "10.00mm" (by decide) (by decide) (by decide) (by decide) (by decide) (by decide)⟩

end InvWish
